import Mathlib

/-!
Verification of the webby HTTP server core (src/include/net/socket.hpp,
src/include/webby/request.hpp, src/include/webby/server.hpp).

The C++ sources are shallowly embedded: a TCP byte stream is a `List Char`
(the bytes pending in the kernel receive queue; an empty list models a peer
that has performed an orderly close, so that recv returns 0), C++
`std::string` values are `List Char`, and the kernel descriptor table is an
explicit `Kernel` record threaded through the socket operations.  Functions
that can throw return `Except String`.
-/

namespace Webby

/-! ### Kernel descriptor table and `net::socket` (socket.hpp lines 36-149) -/

/-- State of the kernel descriptor table: the set of open descriptors and a
count of `close(2)` invocations (instrumentation for the exactly-once-close
property). -/
structure Kernel where
  openFds : List Int
  closeCalls : Nat
deriving DecidableEq

/-- The `close(2)` system call: closing an open descriptor removes it and
returns 0; closing anything else fails with a negative result (EBADF).
Either way the call is counted. -/
def sysClose (k : Kernel) (fd : Int) : Kernel × Int :=
  if fd ∈ k.openFds then
    (⟨k.openFds.erase fd, k.closeCalls + 1⟩, 0)
  else
    (⟨k.openFds, k.closeCalls + 1⟩, -1)

/-- A `net::socket` handle.  The member `_fd` is a `std::shared_ptr<int>`:
`none` models the null pointer of a default-constructed socket, `some fd`
models a pointer to the managed descriptor.  Copies made by the copy
constructor hold the same pointee, so a copy is just the same value. -/
structure Socket where
  fd : Option Int
deriving DecidableEq

/-- Copy constructor `socket(const socket& s) : _fd(s._fd)` (socket.hpp line
55): the copy shares the descriptor. -/
def socketCopy (s : Socket) : Socket := s

/-- Destructor `~socket()` (socket.hpp lines 61-69): whenever `_fd` is
non-null it calls `::close(*_fd)` and throws `socket_error` on a negative
result.  Note the guard is only on nullness of the pointer, not on being the
last owner. -/
def socketDtor (k : Kernel) (s : Socket) : Except String Kernel :=
  match s.fd with
  | none => .ok k
  | some fd =>
    let r := sysClose k fd
    if r.2 < 0 then .error "Error closing socket" else .ok r.1

/-- Destroy a list of handles in sequence, as when several copies go out of
scope; a throwing destructor propagates. -/
def destroyAll : Kernel → List Socket → Except String Kernel
  | k, [] => .ok k
  | k, s :: rest =>
    match socketDtor k s with
    | .error e => .error e
    | .ok k2 => destroyAll k2 rest

/-! ### `socket_impl::create` (socket.hpp lines 177-212) -/

/-- The test `_fd < 0` at socket.hpp line 207, where `_fd` is a
`std::shared_ptr<int>` and `0` a null pointer constant.  Overload resolution
selects `operator<(const shared_ptr<int>&, nullptr_t)`, which compares
`_fd.get()` against the null pointer under `std::less<int*>`; no pointer
orders strictly below null, and `make_shared` has just produced a non-null
pointer, so the comparison is false on both shapes of the pointer.  The
stored descriptor value is never inspected. -/
def shared_ptr_lt_nullptr : Option Int → Bool
  | none => false
  | some _ => false

/-- Inputs that determine a run of `socket_impl::create`: the prior value of
`_fd`, the result of `getaddrinfo` (0 on success) and the result of the
`::socket` system call (negative on failure). -/
structure CreateArgs where
  existingFd : Option Int
  gaiResult : Int
  sockResult : Int
deriving DecidableEq

/-- `socket_impl::create(name, port)` (socket.hpp lines 177-212): refuses a
second creation, throws on resolution failure, stores the result of
`::socket` in a fresh shared pointer, and then performs the (pointer-level)
negativity test before returning. -/
def socket_impl_create (a : CreateArgs) : Except String (Option Int) :=
  if a.existingFd.isSome then .error "Socket already exists."
  else if a.gaiResult ≠ 0 then .error "Could not resolve address"
  else
    let fd : Option Int := some a.sockResult
    if shared_ptr_lt_nullptr fd then .error "Could not create socket"
    else .ok fd

/-! ### `net::socket::read_line` (socket.hpp lines 93-122) -/

def BUFFER_SIZE : Nat := 4096

/-- Is the byte one of the two line-control characters the scan counts? -/
def isEol (c : Char) : Bool := c == '\r' || c == '\n'

/-- The scanning loop of `read_line`: walk the peeked buffer counting CR/LF
bytes until two have been seen; the result is `p - buffer`, the offset one
past the second control byte, or `none` when fewer than two occur. -/
def findEolPos : List Char → Nat → Option Nat
  | [], _ => none
  | c :: cs, found =>
    if isEol c then
      if found + 1 == 2 then some 1
      else (findEolPos cs (found + 1)).map (fun n => n + 1)
    else (findEolPos cs found).map (fun n => n + 1)

/-- `read_line()`: peek up to `BUFFER_SIZE` bytes; if nothing was read
(orderly peer close) return the empty string; otherwise locate the end of
line, throw `socket_error` when it is absent from the window, and otherwise
consume exactly `p` bytes, returning the first `p - 2` of them.  The result
pairs the returned line with the bytes left in the queue -- the consuming
`read_block` removes exactly the `p` bytes previously peeked. -/
def readLine (s : List Char) : Except String (List Char × List Char) :=
  if 0 < (s.take BUFFER_SIZE).length then
    match findEolPos (s.take BUFFER_SIZE) 0 with
    | none => .error "Line not found"
    | some p => .ok (s.take (p - 2), s.drop p)
  else .ok ([], s)

/-! ### Request line (request.hpp lines 127-205) -/

/-- The request method enumeration.  Modelled from the spec: webby/method.hpp
is not part of the sources; the spec's data model lists the variants
"CONNECT, DELETE, GET, HEAD, OPTIONS, POST, PUT, TRACE, or unrecognized",
with unknown tokens preserved as the "unrecognized" variant, which is
therefore the value a request's method field holds before (and unless) the
parser assigns one of the eight named variants. -/
inductive Method where
  | CONNECT
  | DELETE
  | GET
  | HEAD
  | OPTIONS
  | POST
  | PUT
  | TRACE
  | UNRECOGNIZED
deriving DecidableEq

/-- Modelled from the spec: `lowercase` lives in webby/utility.hpp, which is
not part of the sources; it is the ASCII lowercasing its name and its use in
case-insensitive method matching imply. -/
def lowerChar (c : Char) : Char :=
  if 'A' ≤ c ∧ c ≤ 'Z' then Char.ofNat (c.toNat + 32) else c

def lowerStr (s : List Char) : List Char := s.map lowerChar

/-- The if/else-if chain of request.hpp lines 149-172 mapping the lowercased
method token to the enumeration; a token matching no branch leaves the field
at its prior (unrecognized) value. -/
def methodOf (m : List Char) : Method :=
  if m = "connect".data then .CONNECT
  else if m = "delete".data then .DELETE
  else if m = "get".data then .GET
  else if m = "head".data then .HEAD
  else if m = "options".data then .OPTIONS
  else if m = "post".data then .POST
  else if m = "put".data then .PUT
  else if m = "trace".data then .TRACE
  else .UNRECOGNIZED

/-- The eight tokens the parser recognizes. -/
def knownMethodTokens : List (List Char) :=
  ["connect".data, "delete".data, "get".data, "head".data,
   "options".data, "post".data, "put".data, "trace".data]

/-- The iterator scans of request.hpp: index of the first occurrence of a
character, `none` when the scan reaches `cend()`. -/
def findChar (c : Char) : List Char → Option Nat
  | [] => none
  | x :: xs => if x == c then some 0 else (findChar c xs).map (fun n => n + 1)

/-- `request::process_request_line` (request.hpp lines 127-205) applied to
the line returned by `read_line` (CRLF already stripped): find the first
space (else throw), lowercase the method token and map it; from the space
scan for the first `/` (else throw); from there scan for the next space
(else throw); the path is the slice between the `/` and that space. -/
def processRequestLine (l : List Char) : Except String (Method × List Char) :=
  match findChar ' ' l with
  | none => .error "Invalid request line"
  | some i =>
    match findChar '/' (l.drop i) with
    | none => .error "Invalid request line"
    | some j =>
      match findChar ' ' ((l.drop i).drop j) with
      | none => .error "Invalid request line"
      | some k => .ok (methodOf (lowerStr (l.take i)), ((l.drop i).drop j).take k)

/-! ### Header block (request.hpp lines 224-276) -/

/-- The header mapping `std::map<std::string, std::string, no_case_compare>`,
modelled as an association list with at most one entry per case-insensitive
key.  The comparator comes from webby/utility.hpp; modelled from the spec:
"keys compared case-insensitively". -/
abbrev HeaderMap := List (List Char × List Char)

/-- Case-insensitive key equivalence induced by `no_case_compare`. -/
def keyEq (a b : List Char) : Bool := lowerStr a == lowerStr b

/-- Map lookup (`at` / `count` / `operator[]` on an existing key). -/
def hfind : HeaderMap → List Char → Option (List Char)
  | [], _ => none
  | (k, v) :: rest, key => if keyEq k key then some v else hfind rest key

/-- `_header[name] = value`: replace the value of an equivalent key (keeping
the spelling under which it was first inserted, as `std::map` does) or append
a new entry. -/
def hinsert : HeaderMap → List Char → List Char → HeaderMap
  | [], k, v => [(k, v)]
  | (k0, v0) :: rest, k, v =>
    if keyEq k0 k then (k0, v) :: rest else (k0, v0) :: hinsert rest k v

/-- The mutable state of the header loop: the local `name` (the most recently
stored header name) and the map built so far. -/
structure HState where
  name : List Char
  headers : HeaderMap
deriving DecidableEq

/-- `_header[name]` as read in the continuation branch; `name` being
non-empty guarantees the entry exists, so the default is never relevant. -/
def storedValue (st : HState) : List Char := (hfind st.headers st.name).getD []

/-- The continuation test of request.hpp line 244:
`name.length() > 0 && *(_header[name].crend()) == ','`.  The reverse end
iterator `crend()` designates the position BEFORE the first character of the
stored value, so the dereference reads a byte outside the string.  That
out-of-bounds byte is modelled by the parameter `oob`, a function of the
stored value; the intended read, of the LAST character, would have been
`crbegin()`. -/
def contCondition (oob : List Char → Char) (st : HState) : Bool :=
  !st.name.isEmpty && oob (storedValue st) == ','

/-- The leading-space strip at the top of the loop body (request.hpp lines
233-239). -/
def stripLeading (l : List Char) : List Char := l.dropWhile (fun c => c == ' ')

/-- One iteration of the header loop body (request.hpp lines 230-270) on a
non-empty line: strip leading spaces; if the continuation test fires, append
a space and the line to the previously named header's value; otherwise scan
for a colon, and either store name/value (value with its own leading spaces
stripped) or, when no colon exists, do nothing. -/
def headerStepStripped (oob : List Char → Char) (st : HState) (line2 : List Char) : HState :=
  if contCondition oob st then
    ⟨st.name, hinsert st.headers st.name (storedValue st ++ ' ' :: line2)⟩
  else
    match findChar ':' line2 with
    | none => st
    | some i =>
      ⟨line2.take i, hinsert st.headers (line2.take i) (stripLeading (line2.drop (i + 1)))⟩

def headerStep (oob : List Char → Char) (st : HState) (line : List Char) : HState :=
  headerStepStripped oob st (stripLeading line)

/-- `request::process_header_lines` (request.hpp lines 224-276) against the
byte stream: read a line, stop when it is empty (the blank separator, or an
orderly close making `read_line` return the empty string), otherwise run the
loop body and repeat.  `fuel` bounds the number of `read_line` calls; every
theorem supplies enough for the loop to reach its exit. -/
def processHeaderLines (oob : List Char → Char) :
    Nat → List Char → HState → Except String (HeaderMap × List Char)
  | 0, _, _ => .error "out of fuel"
  | fuel + 1, s, st =>
    match readLine s with
    | .error e => .error e
    | .ok (line, s2) =>
      if line.isEmpty then .ok (st.headers, s2)
      else processHeaderLines oob fuel s2 (headerStep oob st line)

/-- The same loop at the level of already-delivered lines: fold the loop body
over the lines until the blank separator (or the end of the list). -/
def runHeaderLines (oob : List Char → Char) (st : HState) : List (List Char) → HState
  | [] => st
  | l :: ls =>
    if l.isEmpty then st else runHeaderLines oob (headerStep oob st l) ls

/-- A line as it sits on the wire: its content followed by CRLF. -/
def encodeLine (l : List Char) : List Char := l ++ ['\r', '\n']

/-- A sequence of wire lines. -/
def encodeLines : List (List Char) → List Char
  | [] => []
  | l :: ls => encodeLine l ++ encodeLines ls

/-- A representative value for the out-of-bounds byte read by the
continuation test: any byte other than a comma. -/
def oobX : List Char → Char := fun _ => 'x'

/-- Hypotheses on the lines of a header block under which `read_line`
delivers each line intact: non-empty, free of control bytes, and fitting the
peek window together with its terminator. -/
abbrev GoodLines (ls : List (List Char)) : Prop :=
  ∀ l ∈ ls, l ≠ [] ∧ (∀ c ∈ l, c ≠ '\r' ∧ c ≠ '\n') ∧ l.length + 2 ≤ BUFFER_SIZE

/-! ### Helper lemmas -/

theorem findChar_append (c : Char) (xs zs : List Char) (h : ∀ x ∈ xs, x ≠ c) :
    findChar c (xs ++ c :: zs) = some xs.length := by
  induction xs with
  | nil => simp [findChar]
  | cons a as ih =>
    have ha : (a == c) = false := by
      simp only [beq_eq_false_iff_ne]
      exact h a (by simp)
    have ih2 := ih (fun x hx => h x (by simp [hx]))
    simp [findChar, ha, ih2]

theorem findEolPos_clean (content : List Char) (xs : List Char)
    (h : ∀ c ∈ content, c ≠ '\r' ∧ c ≠ '\n') :
    findEolPos (content ++ '\r' :: '\n' :: xs) 0 = some (content.length + 2) := by
  induction content with
  | nil => simp [findEolPos, isEol]
  | cons a as ih =>
    have ha : isEol a = false := by
      have := h a (by simp)
      simp [isEol, beq_eq_false_iff_ne, this.1, this.2]
    have ih2 := ih (fun c hc => h c (by simp [hc]))
    simp only [List.cons_append, findEolPos, ha, Bool.false_eq_true, if_false,
      List.append_eq, ih2, Option.map_some, List.length_cons]
    congr 1

theorem readLine_ok (content rest : List Char)
    (hclean : ∀ c ∈ content, c ≠ '\r' ∧ c ≠ '\n')
    (hlen : content.length + 2 ≤ BUFFER_SIZE) :
    readLine (content ++ '\r' :: '\n' :: rest) = .ok (content, rest) := by
  obtain ⟨k, hk⟩ : ∃ k, BUFFER_SIZE - content.length = k + 2 :=
    ⟨BUFFER_SIZE - content.length - 2, by omega⟩
  have hbuf : (content ++ '\r' :: '\n' :: rest).take BUFFER_SIZE
      = content ++ '\r' :: '\n' :: rest.take k := by
    rw [List.take_append_eq_append_take, List.take_of_length_le (by omega), hk]
    simp
  have hfind : findEolPos ((content ++ '\r' :: '\n' :: rest).take BUFFER_SIZE) 0
      = some (content.length + 2) := by
    rw [hbuf]
    exact findEolPos_clean content (rest.take k) hclean
  have hpos : 0 < ((content ++ '\r' :: '\n' :: rest).take BUFFER_SIZE).length := by
    rw [hbuf]
    simp
  have htake : (content ++ '\r' :: '\n' :: rest).take (content.length + 2 - 2) = content := by
    have h2 : content.length + 2 - 2 = content.length := by omega
    rw [h2]
    exact List.take_left content _
  have hdrop : (content ++ '\r' :: '\n' :: rest).drop (content.length + 2) = rest := by
    have hshape : content ++ '\r' :: '\n' :: rest = (content ++ ['\r', '\n']) ++ rest := by
      simp
    rw [hshape]
    exact List.drop_left' (by simp)
  rw [readLine, if_pos hpos, hfind]
  simp only [htake, hdrop]

theorem readLine_empty : readLine [] = .ok ([], []) := rfl

theorem processHeaderLines_step (oob : List Char → Char) (fuel : Nat)
    (line s rest : List Char) (st : HState)
    (h : readLine s = .ok (line, rest)) (hne : line ≠ []) :
    processHeaderLines oob (fuel + 1) s st
      = processHeaderLines oob fuel rest (headerStep oob st line) := by
  cases line with
  | nil => exact absurd rfl hne
  | cons a as => simp [processHeaderLines, h]

theorem runHeaderLines_cons_ne (oob : List Char → Char) (st : HState)
    (l : List Char) (ls : List (List Char)) (h : l ≠ []) :
    runHeaderLines oob st (l :: ls) = runHeaderLines oob (headerStep oob st l) ls := by
  cases l with
  | nil => exact absurd rfl h
  | cons a as => simp [runHeaderLines]

theorem processHL_truncated (oob : List Char → Char) (ls : List (List Char)) :
    ∀ st : HState, GoodLines ls →
    processHeaderLines oob (ls.length + 1) (encodeLines ls) st
      = .ok ((runHeaderLines oob st ls).headers, []) := by
  induction ls with
  | nil =>
    intro st _
    rfl
  | cons l ls ih =>
    intro st h
    have hl := h l (by simp)
    have hshape : encodeLines (l :: ls) = l ++ '\r' :: '\n' :: encodeLines ls := by
      simp [encodeLines, encodeLine]
    have hline : readLine (encodeLines (l :: ls)) = .ok (l, encodeLines ls) := by
      rw [hshape]
      exact readLine_ok l _ hl.2.1 hl.2.2
    have hlen : (l :: ls).length + 1 = ls.length + 1 + 1 := by simp
    rw [hlen, processHeaderLines_step oob (ls.length + 1) l _ _ st hline hl.1,
      ih (headerStep oob st l) (fun x hx => h x (by simp [hx])),
      runHeaderLines_cons_ne oob st l ls hl.1]

theorem processHL_terminated (oob : List Char → Char) (ls : List (List Char)) :
    ∀ st : HState, GoodLines ls →
    processHeaderLines oob (ls.length + 1) (encodeLines ls ++ ['\r', '\n']) st
      = .ok ((runHeaderLines oob st ls).headers, []) := by
  induction ls with
  | nil =>
    intro st _
    rfl
  | cons l ls ih =>
    intro st h
    have hl := h l (by simp)
    have hshape : encodeLines (l :: ls) ++ ['\r', '\n']
        = l ++ '\r' :: '\n' :: (encodeLines ls ++ ['\r', '\n']) := by
      simp [encodeLines, encodeLine]
    have hline : readLine (encodeLines (l :: ls) ++ ['\r', '\n'])
        = .ok (l, encodeLines ls ++ ['\r', '\n']) := by
      rw [hshape]
      exact readLine_ok l _ hl.2.1 hl.2.2
    have hlen : (l :: ls).length + 1 = ls.length + 1 + 1 := by simp
    rw [hlen, processHeaderLines_step oob (ls.length + 1) l _ _ st hline hl.1,
      ih (headerStep oob st l) (fun x hx => h x (by simp [hx])),
      runHeaderLines_cons_ne oob st l ls hl.1]

theorem hfind_congr (m : HeaderMap) (k1 k2 : List Char) (h : lowerStr k1 = lowerStr k2) :
    hfind m k1 = hfind m k2 := by
  induction m with
  | nil => rfl
  | cons kv rest ih =>
    obtain ⟨k, v⟩ := kv
    have hkey : keyEq k k1 = keyEq k k2 := by simp [keyEq, h]
    simp [hfind, hkey, ih]

theorem methodOf_unknown (m : List Char) (h : m ∉ knownMethodTokens) :
    methodOf m = .UNRECOGNIZED := by
  simp only [knownMethodTokens, List.mem_cons, List.not_mem_nil, or_false, not_or] at h
  obtain ⟨h1, h2, h3, h4, h5, h6, h7, h8⟩ := h
  simp [methodOf, h1, h2, h3, h4, h5, h6, h7, h8]

theorem processRequestLine_spec (m pre p v : List Char)
    (hm : ∀ c ∈ m, c ≠ ' ')
    (hpre : ∀ c ∈ pre, c ≠ ' ' ∧ c ≠ '/')
    (hp : ∃ pt, p = '/' :: pt)
    (hpsp : ∀ c ∈ p, c ≠ ' ') :
    processRequestLine (m ++ ' ' :: (pre ++ p ++ ' ' :: v))
      = .ok (methodOf (lowerStr m), p) := by
  obtain ⟨pt, rfl⟩ := hp
  have h1 : findChar ' ' (m ++ ' ' :: (pre ++ '/' :: pt ++ ' ' :: v)) = some m.length :=
    findChar_append ' ' m _ hm
  have htake1 : (m ++ ' ' :: (pre ++ '/' :: pt ++ ' ' :: v)).take m.length = m :=
    List.take_left m _
  have hdrop1 : (m ++ ' ' :: (pre ++ '/' :: pt ++ ' ' :: v)).drop m.length
      = ' ' :: (pre ++ '/' :: pt ++ ' ' :: v) :=
    List.drop_left m _
  have hshape2 : ' ' :: (pre ++ '/' :: pt ++ ' ' :: v)
      = (' ' :: pre) ++ '/' :: (pt ++ ' ' :: v) := by simp
  have h2 : findChar '/' (' ' :: (pre ++ '/' :: pt ++ ' ' :: v)) = some (' ' :: pre).length := by
    rw [hshape2]
    refine findChar_append '/' (' ' :: pre) _ ?_
    intro x hx
    rcases List.mem_cons.mp hx with h | h
    · rw [h]; decide
    · exact (hpre x h).2
  have hdrop2 : (' ' :: (pre ++ '/' :: pt ++ ' ' :: v)).drop (' ' :: pre).length
      = '/' :: (pt ++ ' ' :: v) := by
    rw [hshape2]
    exact List.drop_left _ _
  have hshape3 : '/' :: (pt ++ ' ' :: v) = ('/' :: pt) ++ ' ' :: v := by simp
  have h3 : findChar ' ' ('/' :: (pt ++ ' ' :: v)) = some ('/' :: pt).length := by
    rw [hshape3]
    exact findChar_append ' ' ('/' :: pt) _ hpsp
  have htake3 : ('/' :: (pt ++ ' ' :: v)).take ('/' :: pt).length = '/' :: pt := by
    rw [hshape3]
    exact List.take_left _ _
  rw [processRequestLine, h1]
  simp only [hdrop1, htake1, h2, hdrop2, h3, htake3]

/-! ### Claims -/

/-- C1.  The spec requires that destroying all handles that share a
descriptor closes it exactly once, at the destruction of the last owner.  The
destructor closes whenever its `_fd` pointer is non-null, so EACH handle's
destruction issues a `close`: with a socket for open descriptor 5 and one
copy of it, the first destructor closes the descriptor, and the second issues
a second `close`, which fails (EBADF) and makes the destructor throw.  The
claim is refuted by this evaluation of the code's destructor semantics. -/
theorem socket_copy_double_close :
    socketDtor ⟨[5], 0⟩ ⟨some 5⟩ = .ok ⟨[], 1⟩ ∧
    socketDtor ⟨[], 1⟩ (socketCopy ⟨some 5⟩) = .error "Error closing socket" ∧
    destroyAll ⟨[5], 0⟩ [⟨some 5⟩, socketCopy ⟨some 5⟩] = .error "Error closing socket" :=
  ⟨rfl, rfl, rfl⟩

/-- C2 counterexample.  The claim states destruction never raises past its
owning scope; but destroying a handle whose descriptor the kernel no longer
holds open makes `::close` fail, and `~socket()` then throws `socket_error`. -/
theorem socket_dtor_raises :
    socketDtor ⟨[], 0⟩ ⟨some 5⟩ = .error "Error closing socket" := rfl

/-- C2 (amended).  Whenever closing the descriptor fails, the destructor
reports the failure by THROWING `socket_error`, raising past its owning
scope (and, C++11 destructors being implicitly noexcept, terminating the
process). -/
theorem socket_dtor_error_on_close_failure (k : Kernel) (fd : Int)
    (h : fd ∉ k.openFds) :
    socketDtor k ⟨some fd⟩ = .error "Error closing socket" := by
  simp [socketDtor, sysClose, h]

/-- Witness for C2 (amended) at a concrete kernel state. -/
theorem socket_dtor_error_on_close_failure_witness :
    socketDtor ⟨[], 0⟩ ⟨some 7⟩ = .error "Error closing socket" :=
  socket_dtor_error_on_close_failure ⟨[], 0⟩ 7 (by decide)

/-- C3.  The continuation test dereferences `crend()`, reading the byte
before the start of the stored value instead of its last character
(`crbegin()`).  Evaluating the header machinery with any non-comma value for
that out-of-bounds byte: the block `X: a,CRLF  bCRLF CRLF` leaves `X` at
`a,` (the line `b`, not folded, has no colon and is dropped), while
`X: a, bCRLF CRLF` stores `a, b` -- the two blocks the claim requires to
agree parse to different values. -/
theorem comma_fold_out_of_bounds :
    processHeaderLines oobX 3 ("X: a,\r\n  b\r\n\r\n".data) ⟨[], []⟩
      = .ok ([("X".data, "a,".data)], []) ∧
    processHeaderLines oobX 2 ("X: a, b\r\n\r\n".data) ⟨[], []⟩
      = .ok ([("X".data, "a, b".data)], []) ∧
    ("a,".data : List Char) ≠ "a, b".data :=
  ⟨rfl, rfl, by decide⟩

/-- C4.  When resolution succeeds and the `::socket` call fails with -1, the
negativity test compares the shared POINTER against null rather than the
stored descriptor, so it never fires: `create` returns normally holding the
invalid descriptor -1 instead of failing with the socket-creation error. -/
theorem create_ok_despite_socket_failure :
    socket_impl_create ⟨none, 0, -1⟩ = .ok (some (-1)) := rfl

/-- C5 counterexample.  A request line carrying an absolute-URI prefix:
the path is taken from the FIRST slash after the method, which for
`GET http://h/p HTTP/1.1` is the slash of `://`, yielding `//h/p`; the same
target without the prefix yields `/p`.  The two results differ, refuting
prefix-independence for prefixes that contain a slash. -/
theorem request_line_scheme_prefix_cex :
    processRequestLine ("GET http://h/p HTTP/1.1".data) = .ok (Method.GET, "//h/p".data) ∧
    processRequestLine ("GET /p HTTP/1.1".data) = .ok (Method.GET, "/p".data) ∧
    ("//h/p".data : List Char) ≠ "/p".data :=
  ⟨rfl, rfl, by decide⟩

/-- C5 (amended).  For request lines `METHOD SP [prefix]/path SP version`
whose optional prefix contains neither a space nor a slash (the `host:port`
form), the parser extracts the method token and the path exactly, and the
result is the same as for the line without the prefix. -/
theorem request_line_extraction_exact (m pre p v : List Char)
    (hmsp : ∀ c ∈ m, c ≠ ' ')
    (hpre : ∀ c ∈ pre, c ≠ ' ' ∧ c ≠ '/')
    (hp : ∃ pt, p = '/' :: pt) (hpsp : ∀ c ∈ p, c ≠ ' ') :
    processRequestLine (m ++ ' ' :: (pre ++ p ++ ' ' :: v))
      = .ok (methodOf (lowerStr m), p) ∧
    processRequestLine (m ++ ' ' :: (p ++ ' ' :: v))
      = .ok (methodOf (lowerStr m), p) := by
  refine ⟨processRequestLine_spec m pre p v hmsp hpre hp hpsp, ?_⟩
  have h := processRequestLine_spec m [] p v hmsp (by simp) hp hpsp
  simpa using h

/-- Witness for C5 (amended): a `host:port` prefix and the bare form both
yield method GET and path `/x`. -/
theorem request_line_extraction_exact_witness :
    processRequestLine ("GET".data ++ ' ' :: ("h:80".data ++ "/x".data ++ ' ' :: "HTTP/1.1".data))
      = .ok (Method.GET, "/x".data) ∧
    processRequestLine ("GET".data ++ ' ' :: ("/x".data ++ ' ' :: "HTTP/1.1".data))
      = .ok (Method.GET, "/x".data) :=
  request_line_extraction_exact "GET".data "h:80".data "/x".data "HTTP/1.1".data
    (by decide) (by decide) ⟨"x".data, rfl⟩ (by decide)

/-- C6.  A request line whose method token lowercases to none of the eight
recognized tokens still parses: no failure is raised on account of the
method, and the produced request carries the unrecognized variant. -/
theorem unknown_method_preserved (m p v : List Char)
    (hmsp : ∀ c ∈ m, c ≠ ' ')
    (hunk : lowerStr m ∉ knownMethodTokens)
    (hp : ∃ pt, p = '/' :: pt) (hpsp : ∀ c ∈ p, c ≠ ' ') :
    processRequestLine (m ++ ' ' :: (p ++ ' ' :: v)) = .ok (.UNRECOGNIZED, p) := by
  have h := processRequestLine_spec m [] p v hmsp (by simp) hp hpsp
  rw [methodOf_unknown (lowerStr m) hunk] at h
  simpa using h

/-- Witness for C6 with the unknown method token `BREW`. -/
theorem unknown_method_preserved_witness :
    processRequestLine ("BREW".data ++ ' ' :: ("/x".data ++ ' ' :: "HTTP/1.1".data))
      = .ok (Method.UNRECOGNIZED, "/x".data) :=
  unknown_method_preserved "BREW".data "/x".data "HTTP/1.1".data
    (by decide) (by decide) ⟨"x".data, rfl⟩ (by decide)

/-- C7.  A stream beginning with a CRLF-terminated line (content free of
control bytes) whose terminator lies inside the peek window: `read_line`
returns exactly the content without the terminator, and the queue afterwards
holds exactly the bytes beyond the consumed line, so a later peek sees them
unchanged. -/
theorem read_line_returns_line_and_rest (content rest : List Char)
    (hclean : ∀ c ∈ content, c ≠ '\r' ∧ c ≠ '\n')
    (hlen : content.length + 2 ≤ BUFFER_SIZE) :
    readLine (content ++ '\r' :: '\n' :: rest) = .ok (content, rest) :=
  readLine_ok content rest hclean hlen

/-- Witness for C7 on the stream `ab CRLF cd`. -/
theorem read_line_returns_line_and_rest_witness :
    readLine ("ab".data ++ '\r' :: '\n' :: "cd".data) = .ok ("ab".data, "cd".data) :=
  read_line_returns_line_and_rest "ab".data "cd".data (by decide) (by decide)

/-- C8.  For any header block that parses into a mapping, lookup is
case-insensitive: keys equal up to lowercasing find the same value. -/
theorem header_lookup_case_insensitive (oob : List Char → Char) (fuel : Nat)
    (s : List Char) (st : HState) (m : HeaderMap) (rest k1 k2 : List Char)
    (hparse : processHeaderLines oob fuel s st = .ok (m, rest))
    (hcase : lowerStr k1 = lowerStr k2) :
    hfind m k1 = hfind m k2 :=
  hfind_congr m k1 k2 hcase

/-- Witness for C8: the block `Host: x` looked up under `Host` and `host`. -/
theorem header_lookup_case_insensitive_witness :
    hfind [("Host".data, "x".data)] "Host".data
      = hfind [("Host".data, "x".data)] "host".data :=
  header_lookup_case_insensitive oobX 2 ("Host: x\r\n\r\n".data) ⟨[], []⟩
    [("Host".data, "x".data)] [] "Host".data "host".data rfl (by decide)

/-- C9.  A non-empty header line on which the continuation test does not
fire and whose stripped form contains no colon leaves the header state
untouched (stores nothing, raises nothing -- the loop body is a total
function), and the remaining lines of the block parse exactly as they would
without it. -/
theorem no_colon_line_ignored (oob : List Char → Char) (st : HState)
    (g : List Char) (ls : List (List Char))
    (hne : g ≠ [])
    (hcont : contCondition oob st = false)
    (hcolon : findChar ':' (stripLeading g) = none) :
    headerStep oob st g = st ∧
    runHeaderLines oob st (g :: ls) = runHeaderLines oob st ls := by
  have hstep : headerStep oob st g = st := by
    simp [headerStep, headerStepStripped, hcont, hcolon]
  exact ⟨hstep, by rw [runHeaderLines_cons_ne oob st g ls hne, hstep]⟩

/-- Witness for C9: the colon-free line `garbage` before a valid header. -/
theorem no_colon_line_ignored_witness :
    headerStep oobX ⟨[], []⟩ "garbage".data = ⟨[], []⟩ ∧
    runHeaderLines oobX ⟨[], []⟩ ["garbage".data, "Host: x".data]
      = runHeaderLines oobX ⟨[], []⟩ ["Host: x".data] :=
  no_colon_line_ignored oobX ⟨[], []⟩ "garbage".data ["Host: x".data]
    (by decide) rfl rfl

/-- C10.  On an orderly peer close the pending stream is empty and
`read_line` returns the empty string rather than an error; consequently a
header block cut off before its blank separator parses exactly as if the
blank line were present: construction completes with the headers read so
far, the closed stream acting as the separator. -/
theorem closed_stream_ends_header_block (oob : List Char → Char)
    (ls : List (List Char)) (st : HState) (hg : GoodLines ls) :
    readLine [] = .ok ([], []) ∧
    processHeaderLines oob (ls.length + 1) (encodeLines ls) st
      = .ok ((runHeaderLines oob st ls).headers, []) ∧
    processHeaderLines oob (ls.length + 1) (encodeLines ls) st
      = processHeaderLines oob (ls.length + 1) (encodeLines ls ++ ['\r', '\n']) st :=
  ⟨rfl, processHL_truncated oob ls st hg,
    (processHL_truncated oob ls st hg).trans (processHL_terminated oob ls st hg).symm⟩

/-- Witness for C10: the block `Host: x` with the connection closed before
the blank separator. -/
theorem closed_stream_ends_header_block_witness :
    processHeaderLines oobX 2 (encodeLines ["Host: x".data]) ⟨[], []⟩
      = .ok ((runHeaderLines oobX ⟨[], []⟩ ["Host: x".data]).headers, []) :=
  (closed_stream_ends_header_block oobX ["Host: x".data] ⟨[], []⟩ (by decide)).2.1

end Webby
